import Mathlib

/-!
Verification of the task-hierarchy reconstruction algorithm of the PORTFOLIO
repository (`create_portfolio_portal.py` and `create_portfolio_portal_v2.py`).

The Python code keeps tasks as mutable dictionaries; `build_task_hierarchy`
walks the flat task list once, maintaining a stack of open ancestors, and wires
up a `children` key in place.  We embed this shallowly: the heap of task
dictionaries becomes an indexed store (`List TaskNode`), dictionary references
become positions (`Nat` indices into the store), and the in-place mutation of a
`children` list becomes an update of the store at that position.  Python's
`IndexError` (raised by `list.pop()` on an empty list, or by indexing out of
range) is modelled by returning `none`.
-/

namespace Portfolio

/-- A note row attached to a task, as produced by `parse_csv`
(`content`, `author`, `date` keys of the note dictionary). -/
structure Note where
  content : String
  author : String
  date : String
deriving DecidableEq, Repr

/-- One flat task record, with the fields `parse_csv` of
`create_portfolio_portal.py` puts into each task dictionary.  The Python key
`section` is spelled `sectionName` here because `section` is a Lean keyword.
The mutable `children` key added later by `build_task_hierarchy` is *not* part
of this structure; it lives in `TaskNode` so that the builder's mutation is
visible in the embedding. -/
structure Task where
  id : Nat
  content : String
  description : String
  priority : Int
  indent : Int
  sectionName : String
  author : String
  responsible : String
  date : String
  deadline : String
  deadline_lang : String
  notes : List Note
deriving DecidableEq, Repr

/-- A task dictionary as seen by `build_task_hierarchy`: the parsed record
together with its `children` key.  Children are referenced by their position in
the input task list (the embedding's stand-in for Python object references). -/
structure TaskNode where
  task : Task
  children : List Nat
deriving DecidableEq, Repr

/-- The state of `build_task_hierarchy` mid-loop: the heap of task
dictionaries (`store`, indexed by input position), the `root_tasks`
accumulator, and the open-ancestor stack `task_stack`.  The stack is kept with
its top (Python's `task_stack[-1]`) at the head of the list. -/
structure BuildState where
  store : List TaskNode
  root_tasks : List Nat
  task_stack : List Nat
deriving DecidableEq, Repr

/-- In-place update of the element at index `i` (Python `l[i] = f(l[i])`);
out-of-range indices leave the list unchanged (callers that must mirror
Python's `IndexError` check the bound themselves). -/
def modifyAt : List α → Nat → (α → α) → List α
  | [], _, _ => []
  | x :: xs, 0, f => f x :: xs
  | x :: xs, n + 1, f => x :: modifyAt xs n f

/-- Read the element at index `i` (Python `l[i]` for a non-negative index). -/
def getIdx : List α → Nat → Option α
  | [], _ => none
  | x :: _, 0 => some x
  | _ :: xs, n + 1 => getIdx xs n

/-- Number of occurrences of the position `j` in a list of positions. -/
def countN (j : Nat) : List Nat → Nat
  | [] => 0
  | x :: xs => (if x = j then 1 else 0) + countN j xs

/-- `while len(task_stack) >= indent: task_stack.pop()` — pop until the stack
is shorter than `indent`.  When the loop body runs with an empty stack
(which happens exactly when `indent <= 0`), Python's `pop` raises
`IndexError`; we return `none`. -/
def popWhileGE (indent : Int) : List Nat → Option (List Nat)
  | [] => if (0 : Int) ≥ indent then none else some []
  | x :: xs =>
    if ((x :: xs).length : Int) ≥ indent then popWhileGE indent xs
    else some (x :: xs)

/-- `task['children'] = []` — reset the `children` key of a task dictionary. -/
def resetChildren (nd : TaskNode) : TaskNode := { nd with children := [] }

/-- `parent['children'].append(task)` — append the position `i` to the
`children` key of a task dictionary. -/
def addChild (i : Nat) (nd : TaskNode) : TaskNode :=
  { nd with children := nd.children ++ [i] }

/-- One iteration of the loop body of `build_task_hierarchy`
(`create_portfolio_portal.py` lines 65–82) for the task at input position `i`
whose `indent` field is `indent`:

    task['children'] = []
    indent = task['indent']
    while len(task_stack) >= indent:
        task_stack.pop()
    if indent == 1:
        root_tasks.append(task)
        task_stack = [task]
    else:
        if task_stack:
            parent = task_stack[-1]
            parent['children'].append(task)
        task_stack.append(task)

Note that when `indent != 1` and the stack is empty after popping, the task is
pushed on the stack but appended to neither `root_tasks` nor any `children`
list. -/
def buildStep (st : BuildState) (i : Nat) (indent : Int) : Option BuildState :=
  let store1 := modifyAt st.store i resetChildren
  match popWhileGE indent st.task_stack with
  | none => none
  | some stack1 =>
    if indent = 1 then
      some ⟨store1, st.root_tasks ++ [i], [i]⟩
    else
      match stack1 with
      | [] => some ⟨store1, st.root_tasks, [i]⟩
      | p :: rest => some ⟨modifyAt store1 p (addChild i), st.root_tasks, i :: p :: rest⟩

/-- `for task in tasks:` — run `buildStep` over the remaining tasks, where
`pos` is the input position of the first remaining task. -/
def buildLoop : List Task → Nat → BuildState → Option BuildState
  | [], _, st => some st
  | t :: ts, pos, st =>
    match buildStep st pos t.indent with
    | none => none
    | some st1 => buildLoop ts (pos + 1) st1

/-- `build_task_hierarchy(tasks)` of `create_portfolio_portal.py`
(lines 60–84).  The result is the final heap together with the `root_tasks`
list of positions (Python returns the list of root dictionaries, which
reference the same heap); `none` models an uncaught `IndexError`. -/
def build_task_hierarchy (tasks : List Task) : Option BuildState :=
  buildLoop tasks 0 ⟨tasks.map (fun t => ⟨t, []⟩), [], []⟩

/-- How many times position `j` occurs in some `children` list of the store. -/
def childOcc (j : Nat) : List TaskNode → Nat
  | [] => 0
  | nd :: rest => countN j nd.children + childOcc j rest

/-- How many owners position `j` has in the forest: occurrences in
`root_tasks` plus occurrences in all `children` lists. -/
def occCount (st : BuildState) (j : Nat) : Nat :=
  countN j st.root_tasks + childOcc j st.store

/-- A task record with a given `id` and `indent` and empty payload, used as
concrete test input for the builder (the builder reads only `indent`). -/
def mkT (id : Nat) (indent : Int) : Task :=
  ⟨id, "", "", 1, indent, "", "", "", "", "", "", []⟩

/-! ### The v2 builder

`create_portfolio_portal_v2.py` (lines 104–125) contains its own copy of
`build_task_hierarchy`.  We embed it separately, statement for statement, so
that the relationship between the two versions is a theorem rather than an
assumption. -/

/-- The pop loop of the v2 builder (`create_portfolio_portal_v2.py`
lines 113–114): `while len(task_stack) >= indent: task_stack.pop()`. -/
def popWhileGE_v2 (indent : Int) : List Nat → Option (List Nat)
  | [] => if (0 : Int) ≥ indent then none else some []
  | x :: xs =>
    if ((x :: xs).length : Int) ≥ indent then popWhileGE_v2 indent xs
    else some (x :: xs)

/-- One iteration of the loop body of the v2 builder
(`create_portfolio_portal_v2.py` lines 109–123). -/
def buildStep_v2 (st : BuildState) (i : Nat) (indent : Int) : Option BuildState :=
  let store1 := modifyAt st.store i resetChildren
  match popWhileGE_v2 indent st.task_stack with
  | none => none
  | some stack1 =>
    if indent = 1 then
      some ⟨store1, st.root_tasks ++ [i], [i]⟩
    else
      match stack1 with
      | [] => some ⟨store1, st.root_tasks, [i]⟩
      | p :: rest => some ⟨modifyAt store1 p (addChild i), st.root_tasks, i :: p :: rest⟩

/-- The task loop of the v2 builder. -/
def buildLoop_v2 : List Task → Nat → BuildState → Option BuildState
  | [], _, st => some st
  | t :: ts, pos, st =>
    match buildStep_v2 st pos t.indent with
    | none => none
    | some st1 => buildLoop_v2 ts (pos + 1) st1

/-- `build_task_hierarchy(tasks)` of `create_portfolio_portal_v2.py`
(lines 104–125). -/
def build_task_hierarchy_v2 (tasks : List Task) : Option BuildState :=
  buildLoop_v2 tasks 0 ⟨tasks.map (fun t => ⟨t, []⟩), [], []⟩

/-! ### The CSV row loop of `parse_csv`

`parse_csv` of `create_portfolio_portal.py` (lines 10–58) reads the CSV with
`csv.DictReader` and folds the rows into `sections`, `current_section`,
`tasks` and `last_task_id`.  File I/O and the CSV reader are external
collaborators; we embed the per-row loop body over an already-decoded list of
rows.  `csv.DictReader` yields every header field for every row, so a `Row`
carries all the columns the loop reads, as strings. -/

/-- One decoded CSV row: the columns read by `parse_csv`, as strings
(`row.get(KEY, '')` of a `DictReader` row). -/
structure Row where
  TYPE : String
  CONTENT : String
  IS_COLLAPSED : String
  DESCRIPTION : String
  PRIORITY : String
  INDENT : String
  AUTHOR : String
  RESPONSIBLE : String
  DATE : String
  DEADLINE : String
  DEADLINE_LANG : String
deriving DecidableEq, Repr

/-- A section dictionary built by `parse_csv` (`id`, `name`, `is_collapsed`). -/
structure Sect where
  id : String
  name : String
  is_collapsed : Bool
deriving DecidableEq, Repr

/-- The loop state of `parse_csv`: the `sections` list, the
`current_section` variable (initially `None`), the `tasks` list and the
`last_task_id` counter. -/
structure ParseState where
  sections : List Sect
  current_section : Option Sect
  tasks : List Task
  last_task_id : Nat
deriving DecidableEq, Repr

/-- The state at the top of `parse_csv`: empty lists, no current section,
`last_task_id = 0`. -/
def initParseState : ParseState := ⟨[], none, [], 0⟩

/-- Python whitespace, as recognised by `str.strip()` (space, tab, newline,
carriage return, vertical tab, form feed). -/
def isPySpace (c : Char) : Bool :=
  c = ' ' || c = '\t' || c = '\n' || c = '\r' || c = '\x0b' || c = '\x0c'

/-- Drop the longest prefix of characters satisfying `p`. -/
def dropLeading (p : Char → Bool) : List Char → List Char
  | [] => []
  | c :: cs => if p c then dropLeading p cs else c :: cs

/-- Python's `str.strip()`: remove whitespace from both ends of a string. -/
def pyStrip (s : String) : String :=
  ⟨(dropLeading isPySpace (dropLeading isPySpace s.data).reverse).reverse⟩

/-- Read a non-empty run of decimal digits into an accumulator; `none` on a
non-digit or on the empty list. -/
def readDigits : List Char → Nat → Option Nat
  | [], _ => none
  | [c], acc => if c.isDigit then some (acc * 10 + (c.toNat - 48)) else none
  | c :: cs, acc =>
    if c.isDigit then readDigits cs (acc * 10 + (c.toNat - 48)) else none

/-- Python's `int` builtin on a stripped character list: an optional sign
followed by at least one decimal digit; anything else raises `ValueError`
(`none`).  (Underscore digit separators are not modelled; the CSV export
never contains them.) -/
def pyIntCore (cs : List Char) : Option Int :=
  match cs with
  | '-' :: rest => (readDigits rest 0).map (fun n => -(n : Int))
  | '+' :: rest => (readDigits rest 0).map (fun n => (n : Int))
  | _ => (readDigits cs 0).map (fun n => (n : Int))

/-- Python's `int` builtin applied to a CSV cell: strip surrounding
whitespace (which `int` itself tolerates), then parse a signed decimal
integer; `none` models the `ValueError` raised on anything else. -/
def pyInt (s : String) : Option Int := pyIntCore (pyStrip s).data

/-- The note dictionary built from a `note` row
(`create_portfolio_portal.py` lines 51–55). -/
def noteOf (row : Row) : Note :=
  ⟨pyStrip row.CONTENT, pyStrip row.AUTHOR, pyStrip row.DATE⟩

/-- One iteration of the row loop of `parse_csv`
(`create_portfolio_portal.py` lines 21–56):

    row_type = row.get('TYPE', '').strip()
    if row_type == 'section': ...
    elif row_type == 'task': ...
    elif row_type == 'note' and last_task_id > 0:
        tasks[last_task_id - 1]['notes'].append(note)

`none` models an uncaught exception: `ValueError` from `int(...)` on a
malformed `PRIORITY`/`INDENT` cell, or `IndexError` from
`tasks[last_task_id - 1]` when the index is out of range. -/
def parseRow (st : ParseState) (row : Row) : Option ParseState :=
  let row_type := pyStrip row.TYPE
  if row_type = "section" then
    let s : Sect := ⟨"section_" ++ toString st.sections.length,
                     pyStrip row.CONTENT,
                     row.IS_COLLAPSED = "True"⟩
    some ⟨st.sections ++ [s], some s, st.tasks, st.last_task_id⟩
  else if row_type = "task" then
    match pyInt row.PRIORITY, pyInt row.INDENT with
    | some pr, some ind =>
      let t : Task :=
        ⟨st.last_task_id + 1, pyStrip row.CONTENT, pyStrip row.DESCRIPTION, pr, ind,
         (match st.current_section with
          | some s => s.name
          | none => "No Section"),
         pyStrip row.AUTHOR, pyStrip row.RESPONSIBLE, pyStrip row.DATE,
         pyStrip row.DEADLINE, pyStrip row.DEADLINE_LANG, []⟩
      some ⟨st.sections, st.current_section, st.tasks ++ [t], st.last_task_id + 1⟩
    | _, _ => none
  else if row_type = "note" then
    if st.last_task_id > 0 then
      if st.last_task_id - 1 < st.tasks.length then
        some ⟨st.sections, st.current_section,
              modifyAt st.tasks (st.last_task_id - 1)
                (fun t => { t with notes := t.notes ++ [noteOf row] }),
              st.last_task_id⟩
      else none
    else some st
  else some st

/-- The row loop of `parse_csv` over a list of decoded rows. -/
def parseRows (st : ParseState) : List Row → Option ParseState
  | [] => some st
  | r :: rs =>
    match parseRow st r with
    | none => none
    | some st1 => parseRows st1 rs

/-- `parse_csv` (minus file I/O): fold the rows from the initial state and
return `(sections, tasks)`. -/
def parse_csv (rows : List Row) : Option (List Sect × List Task) :=
  (parseRows initParseState rows).map (fun st => (st.sections, st.tasks))

/-- A CSV row with a given `TYPE` and `CONTENT` and all other cells empty
except numeric ones, used as concrete test input. -/
def mkRow (ty content : String) : Row :=
  ⟨ty, content, "", "", "1", "1", "", "", "", "", ""⟩

/-- The task record that `parse_csv` produces for the row
`mkRow "task" "a"` read in the initial state. -/
def taskA : Task :=
  ⟨1, "a", "", 1, 1, "No Section", "", "", "", "", "", []⟩

/-- Well-formedness invariant maintained by the builder loop when the tasks at
positions `< pos` have been processed: dictionaries not yet reached have empty
`children` and no owner; every position has at most one owner; the stack holds
already-processed positions, most recent on top; and `children` lists only
point forward in the input (which rules out ownership cycles). -/
structure BuildInv (pos : Nat) (st : BuildState) : Prop where
  freshChildren : ∀ j nd, pos ≤ j → getIdx st.store j = some nd → nd.children = []
  freshOcc : ∀ j, pos ≤ j → occCount st j = 0
  occLe : ∀ j, occCount st j ≤ 1
  stackLt : ∀ j ∈ st.task_stack, j < pos
  stackSorted : List.Pairwise (· > ·) st.task_stack
  childGt : ∀ p nd, getIdx st.store p = some nd → ∀ j ∈ nd.children, p < j

/-! ### Basic lemmas about the list helpers -/

theorem modifyAt_length (l : List α) (f : α → α) : ∀ i, (modifyAt l i f).length = l.length := by
  induction l with
  | nil => intro i; rfl
  | cons x xs ih =>
    intro i
    cases i with
    | zero => rfl
    | succ n => simpa [modifyAt] using ih n

theorem getIdx_modifyAt_ne (l : List α) (f : α → α) :
    ∀ i j, j ≠ i → getIdx (modifyAt l i f) j = getIdx l j := by
  induction l with
  | nil => intro i j _; rfl
  | cons x xs ih =>
    intro i j hne
    cases i with
    | zero =>
      cases j with
      | zero => exact absurd rfl hne
      | succ m => rfl
    | succ n =>
      cases j with
      | zero => rfl
      | succ m => simpa [modifyAt, getIdx] using ih n m (by omega)

theorem getIdx_modifyAt_self (l : List α) (f : α → α) :
    ∀ i, getIdx (modifyAt l i f) i = (getIdx l i).map f := by
  induction l with
  | nil => intro i; rfl
  | cons x xs ih =>
    intro i
    cases i with
    | zero => rfl
    | succ n => simpa [modifyAt, getIdx] using ih n

theorem modifyAt_id_of_fixed (l : List α) (f : α → α) :
    ∀ i, (∀ a, getIdx l i = some a → f a = a) → modifyAt l i f = l := by
  induction l with
  | nil => intro i _; rfl
  | cons x xs ih =>
    intro i hfix
    cases i with
    | zero => simp [modifyAt, hfix x rfl]
    | succ n => simp [modifyAt, ih n (fun a ha => hfix a ha)]

theorem getIdx_map (g : α → β) (l : List α) :
    ∀ j, getIdx (l.map g) j = (getIdx l j).map g := by
  induction l with
  | nil => intro j; rfl
  | cons x xs ih =>
    intro j
    cases j with
    | zero => rfl
    | succ m => simpa [getIdx] using ih m

theorem countN_append (j : Nat) (a b : List Nat) :
    countN j (a ++ b) = countN j a + countN j b := by
  induction a with
  | nil => simp [countN]
  | cons x xs ih => simp [countN, ih]; omega

theorem countN_single (j i : Nat) : countN j [i] = if i = j then 1 else 0 := by
  simp [countN]

theorem childOcc_modifyAt_addChild (i j : Nat) (l : List TaskNode) :
    ∀ p, childOcc j (modifyAt l p (addChild i)) =
      childOcc j l + (if p < l.length then (if i = j then 1 else 0) else 0) := by
  induction l with
  | nil => intro p; simp [modifyAt, childOcc]
  | cons x xs ih =>
    intro p
    cases p with
    | zero =>
      simp [modifyAt, childOcc, addChild, countN_append, countN_single]
      omega
    | succ n =>
      simp [modifyAt, childOcc, ih n, Nat.succ_lt_succ_iff]
      omega

theorem childOcc_map_mk (j : Nat) (tasks : List Task) :
    childOcc j (tasks.map (fun t => ⟨t, []⟩)) = 0 := by
  induction tasks with
  | nil => rfl
  | cons t ts ih => simpa [childOcc, countN] using ih

/-! ### Lemmas about the pop loop -/

theorem popWhileGE_suffix {k : Int} :
    ∀ {s s1 : List Nat}, popWhileGE k s = some s1 → s1 <:+ s := by
  intro s
  induction s with
  | nil =>
    intro s1 h
    simp only [popWhileGE] at h
    split at h
    · exact absurd h (by simp)
    · cases h; exact List.suffix_refl []
  | cons x xs ih =>
    intro s1 h
    simp only [popWhileGE] at h
    split at h
    · exact (ih h).trans (List.suffix_cons x xs)
    · cases h; exact List.suffix_refl _

theorem popWhileGE_length_lt {k : Int} :
    ∀ {s s1 : List Nat}, popWhileGE k s = some s1 → (s1.length : Int) < k := by
  intro s
  induction s with
  | nil =>
    intro s1 h
    simp only [popWhileGE] at h
    split at h
    · exact absurd h (by simp)
    · cases h; simp; omega
  | cons x xs ih =>
    intro s1 h
    simp only [popWhileGE] at h
    split at h
    · exact ih h
    · cases h; omega

theorem popWhileGE_isSome {k : Int} (hk : 1 ≤ k) :
    ∀ s : List Nat, (popWhileGE k s).isSome = true := by
  intro s
  induction s with
  | nil =>
    simp only [popWhileGE]
    split
    · omega
    · rfl
  | cons x xs ih =>
    simp only [popWhileGE]
    split
    · exact ih
    · rfl

/-! ### The two builder versions coincide -/

theorem popWhileGE_v2_eq (k : Int) : ∀ s, popWhileGE_v2 k s = popWhileGE k s := by
  intro s
  induction s with
  | nil => rfl
  | cons x xs ih => simp only [popWhileGE_v2, popWhileGE, ih]

theorem buildStep_v2_eq (st : BuildState) (i : Nat) (k : Int) :
    buildStep_v2 st i k = buildStep st i k := by
  simp only [buildStep_v2, buildStep, popWhileGE_v2_eq]

theorem buildLoop_v2_eq : ∀ (ts : List Task) (pos : Nat) (st : BuildState),
    buildLoop_v2 ts pos st = buildLoop ts pos st := by
  intro ts
  induction ts with
  | nil => intro pos st; rfl
  | cons t ts ih =>
    intro pos st
    simp only [buildLoop_v2, buildLoop, buildStep_v2_eq]
    cases buildStep st pos t.indent with
    | none => rfl
    | some st1 => exact ih (pos + 1) st1

/-! ### Claim theorems -/

/-- C9: the hierarchy builders of `create_portfolio_portal.py` and
`create_portfolio_portal_v2.py` are extensionally equal: on every input task
list they produce identical forests (same heap, same roots, and even the same
final stack). -/
theorem build_v1_v2_agree :
    ∀ tasks : List Task, build_task_hierarchy_v2 tasks = build_task_hierarchy tasks := by
  intro tasks
  simp only [build_task_hierarchy_v2, build_task_hierarchy, buildLoop_v2_eq]

/-- C8: building from the empty record sequence succeeds (no exception) and
returns an empty forest: no roots, empty heap, empty stack. -/
theorem build_empty : build_task_hierarchy [] = some ⟨[], [], []⟩ := rfl

/-- C7: on the input `[(1,1), (2,2), (3,3), (4,2), (5,3)]` (ids paired with
indents; position `j` holds id `j+1`) the builder returns a single root id 1
(position 0) whose children are ids 2 and 4 (positions 1 and 3, in that
order); id 2's children are exactly id 3 (position 2); id 4's children are
exactly id 5 (position 4). -/
theorem build_p4_example :
    build_task_hierarchy [mkT 1 1, mkT 2 2, mkT 3 3, mkT 4 2, mkT 5 3] =
      some ⟨[⟨mkT 1 1, [1, 3]⟩, ⟨mkT 2 2, [2]⟩, ⟨mkT 3 3, []⟩,
             ⟨mkT 4 2, [4]⟩, ⟨mkT 5 3, []⟩], [0], [4, 3, 0]⟩ := rfl

/-- C1 counterexample: on the input `[(id=1, indent=3)]` (first record with
`indentLevel > 1`, so the stack is empty after popping) the builder returns a
forest with an *empty* roots list — the record is not promoted to root, its
dictionary is only pushed on the stack, contradicting the claim that this
input yields exactly one root with id 1. -/
theorem orphan_first_record_yields_no_roots :
    (build_task_hierarchy [mkT 1 3]).map (fun st => st.root_tasks) = some [] := rfl

/-- C2 counterexample: a record with `indentLevel = 0` makes the builder raise
an uncaught `IndexError` (the pop loop `while len(task_stack) >= indent` runs
with an empty stack), modelled here as `none` — the value 0 is not clamped to
1 and no forest is returned, contradicting totality. -/
theorem indent_zero_raises : build_task_hierarchy [mkT 1 0] = none := rfl

/-- C3 counterexample: on `[(1,1), (2,5), (3,3)]` the node at position 2
(id 3, `indentLevel` 3) ends up as the only child of the node at position 1
(id 2, `indentLevel` 5): the forest is root 0 with child 1, whose child is 2.
No record has `indentLevel` 2 at all, so the claimed invariant would force
id 3 to be a root; instead it is a non-root child of a node whose indent is 5,
not `k - 1 = 2`. -/
theorem gap_parent_not_level_pred :
    build_task_hierarchy [mkT 1 1, mkT 2 5, mkT 3 3] =
      some ⟨[⟨mkT 1 1, [1]⟩, ⟨mkT 2 5, [2]⟩, ⟨mkT 3 3, []⟩], [0], [2, 1, 0]⟩ := rfl

/-- C4 counterexample: on `[(id=1, indent=3)]` the node built from the single
input record has *zero* owners — it occurs neither in the roots list nor in
any `children` list — contradicting the claim that every record's node
appears exactly once in the forest. -/
theorem orphan_record_absent :
    (build_task_hierarchy [mkT 1 3]).map (fun st => occCount st 0) = some 0 := rfl

/-- C1 (amended): when a record with `indentLevel ≠ 1` arrives and the
open-ancestor stack is empty after popping (in particular for the first record
of the sequence with `indentLevel > 1`), the builder pushes the new node onto
the stack but appends it neither to the roots list nor to any `children`
list — the node is *not* promoted to root and has no owner in the returned
forest; e.g. `[(id=1, indent=3)]` yields a forest with zero roots. -/
theorem orphan_record_dropped_from_forest (st : BuildState) (i : Nat) (k : Int)
    (hk : k ≠ 1) (hpop : popWhileGE k st.task_stack = some []) :
    buildStep st i k = some ⟨modifyAt st.store i resetChildren, st.root_tasks, [i]⟩ := by
  simp only [buildStep, hpop, if_neg hk]

/-- Witness for the amended C1 at the concrete input of the counterexample:
processing record 0 with indent 3 on an empty stack keeps the roots list
empty. -/
theorem orphan_record_dropped_witness :
    buildStep ⟨[⟨mkT 1 3, []⟩], [], []⟩ 0 3 =
      some ⟨modifyAt [⟨mkT 1 3, []⟩] 0 resetChildren, [], [0]⟩ :=
  orphan_record_dropped_from_forest ⟨[⟨mkT 1 3, []⟩], [], []⟩ 0 3 (by decide) rfl

/-- C6: on an indent gap — more generally whenever the stack is still
non-empty after popping to length `< k` — the new node is attached as a child
of the node currently at the top of the stack (`task_stack[-1]`), and the
roots list is left unchanged (no promotion to root); the node is then pushed
on top. -/
theorem gap_attaches_to_stack_top (st : BuildState) (i p : Nat) (k : Int) (rest : List Nat)
    (hpop : popWhileGE k st.task_stack = some (p :: rest)) :
    buildStep st i k =
      some ⟨modifyAt (modifyAt st.store i resetChildren) p (addChild i),
            st.root_tasks, i :: p :: rest⟩ := by
  have hlen := popWhileGE_length_lt hpop
  have hk : k ≠ 1 := by simp at hlen; omega
  simp only [buildStep, hpop, if_neg hk]

/-- Witness for C6: a record with indent 3 arriving over the open root at
position 0 (a gap: the stack has length 1 < 2) is attached to that root, not
promoted. -/
theorem gap_attaches_to_stack_top_witness :
    buildStep ⟨[⟨mkT 1 1, []⟩, ⟨mkT 2 3, []⟩], [0], [0]⟩ 1 3 =
      some ⟨modifyAt (modifyAt [⟨mkT 1 1, []⟩, ⟨mkT 2 3, []⟩] 1 resetChildren) 0 (addChild 1),
            [0], [1, 0]⟩ :=
  gap_attaches_to_stack_top ⟨[⟨mkT 1 1, []⟩, ⟨mkT 2 3, []⟩], [0], [0]⟩ 1 0 3 [] rfl

/-- C3 (amended): for a record with `indentLevel = k ≠ 1`, after popping the
stack to length `< k` the builder attaches the new node to the node on *top*
of the remaining stack — which, the stack being ordered by construction time
(most recent on top), is the most recently constructed node still open, but
need not have `indentLevel = k - 1` when indent gaps occurred; if instead the
stack is empty after popping, the node receives no parent and is also not made
a root (it is absent from the forest). -/
theorem parent_is_stack_top (st : BuildState) (i : Nat) (k : Int) (stack1 : List Nat)
    (hk : k ≠ 1) (hpop : popWhileGE k st.task_stack = some stack1)
    (hsorted : List.Pairwise (· > ·) st.task_stack) :
    match stack1 with
    | [] => buildStep st i k = some ⟨modifyAt st.store i resetChildren, st.root_tasks, [i]⟩
    | p :: rest =>
        (buildStep st i k =
          some ⟨modifyAt (modifyAt st.store i resetChildren) p (addChild i),
                st.root_tasks, i :: p :: rest⟩) ∧
        ∀ q ∈ p :: rest, q ≤ p := by
  cases stack1 with
  | nil => simp only [buildStep, hpop, if_neg hk]
  | cons p rest =>
    refine ⟨by simp only [buildStep, hpop, if_neg hk], ?_⟩
    have hsub : List.Pairwise (· > ·) (p :: rest) :=
      hsorted.sublist (popWhileGE_suffix hpop).sublist
    intro q hq
    rcases List.mem_cons.mp hq with h | h
    · exact Nat.le_of_eq h
    · exact Nat.le_of_lt ((List.pairwise_cons.mp hsub).1 q h)

/-- Witness for the amended C3: with one open root (position 0) on the stack,
a record with indent 2 gets position 0 — the top of the stack and the maximum
(most recent) of its elements — as parent. -/
theorem parent_is_stack_top_witness :
    (buildStep ⟨[⟨mkT 1 1, []⟩], [0], [0]⟩ 1 2 =
      some ⟨modifyAt (modifyAt [⟨mkT 1 1, []⟩] 1 resetChildren) 0 (addChild 1),
            [0], [1, 0]⟩) ∧
    ∀ q ∈ ([0] : List Nat), q ≤ 0 :=
  parent_is_stack_top ⟨[⟨mkT 1 1, []⟩], [0], [0]⟩ 1 2 [0] (by decide) rfl (by simp)

/-- A single builder iteration cannot raise when the record's indent is at
least 1: the pop loop stops before emptying the stack completely. -/
theorem buildStep_isSome (st : BuildState) (i : Nat) {k : Int} (hk : 1 ≤ k) :
    (buildStep st i k).isSome = true := by
  have h := popWhileGE_isSome hk st.task_stack
  cases hp : popWhileGE k st.task_stack with
  | none => rw [hp] at h; simp at h
  | some s1 =>
    simp only [buildStep, hp]
    split
    · rfl
    · cases s1 <;> rfl

/-- The builder loop never raises when every remaining indent is at least 1. -/
theorem buildLoop_isSome : ∀ (ts : List Task) (pos : Nat) (st : BuildState),
    (∀ t ∈ ts, 1 ≤ t.indent) → (buildLoop ts pos st).isSome = true := by
  intro ts
  induction ts with
  | nil => intro pos st _; rfl
  | cons t ts ih =>
    intro pos st h
    have h1 : 1 ≤ t.indent := h t (List.mem_cons_self t ts)
    have h2 := buildStep_isSome st pos h1
    cases hs : buildStep st pos t.indent with
    | none => rw [hs] at h2; simp at h2
    | some st1 =>
      simp only [buildLoop, hs]
      exact ih (pos + 1) st1 (fun x hx => h x (List.mem_cons_of_mem t hx))

/-- C2 (amended): the builder is total on every finite input whose records all
have `indentLevel ≥ 1` (no exception, a forest is returned).  Indents below 1
are *not* clamped: a record with `indentLevel ≤ 0` raises an uncaught
`IndexError` from `task_stack.pop()` (see the C2 counterexample). -/
theorem build_total_of_indent_ge_one (tasks : List Task)
    (h : ∀ t ∈ tasks, 1 ≤ t.indent) :
    (build_task_hierarchy tasks).isSome = true :=
  buildLoop_isSome tasks 0 _ h

/-- Witness for the amended C2 on a concrete well-indented input. -/
theorem build_total_witness : (build_task_hierarchy [mkT 1 1, mkT 2 2]).isSome = true :=
  build_total_of_indent_ge_one [mkT 1 1, mkT 2 2] (by decide)

/-- Updating one task dictionary in a way that keeps its record fields intact
(only `children` may change) leaves the stored record sequence unchanged. -/
theorem mapTask_modifyAt (l : List TaskNode) (f : TaskNode → TaskNode)
    (hf : ∀ nd, (f nd).task = nd.task) :
    ∀ i, (modifyAt l i f).map TaskNode.task = l.map TaskNode.task := by
  induction l with
  | nil => intro i; rfl
  | cons x xs ih =>
    intro i
    cases i with
    | zero => simp [modifyAt, hf]
    | succ n => simp [modifyAt, ih n]

/-- A builder iteration only writes `children` keys: the sequence of task
records in the heap is unchanged. -/
theorem buildStep_store_tasks {st st1 : BuildState} {i : Nat} {k : Int}
    (h : buildStep st i k = some st1) :
    st1.store.map TaskNode.task = st.store.map TaskNode.task := by
  cases hp : popWhileGE k st.task_stack with
  | none =>
    simp only [buildStep, hp] at h
    exact Option.noConfusion h
  | some s1 =>
    simp only [buildStep, hp] at h
    split at h
    · cases h
      exact mapTask_modifyAt st.store resetChildren (fun nd => rfl) i
    · cases s1 with
      | nil =>
        cases h
        exact mapTask_modifyAt st.store resetChildren (fun nd => rfl) i
      | cons p rest =>
        cases h
        show (modifyAt (modifyAt st.store i resetChildren) p (addChild i)).map TaskNode.task
          = st.store.map TaskNode.task
        rw [mapTask_modifyAt _ (addChild i) (fun nd => rfl) p,
            mapTask_modifyAt st.store resetChildren (fun nd => rfl) i]

/-- The builder loop only writes `children` keys. -/
theorem buildLoop_store_tasks : ∀ (ts : List Task) (pos : Nat) (st st1 : BuildState),
    buildLoop ts pos st = some st1 →
    st1.store.map TaskNode.task = st.store.map TaskNode.task := by
  intro ts
  induction ts with
  | nil => intro pos st st1 h; cases h; rfl
  | cons t ts ih =>
    intro pos st st1 h
    cases hs : buildStep st pos t.indent with
    | none =>
      simp only [buildLoop, hs] at h
      exact Option.noConfusion h
    | some st2 =>
      simp only [buildLoop, hs] at h
      rw [ih _ _ _ h, buildStep_store_tasks hs]

/-- C5: beyond wiring up `children`, the builder has no effect on the input
records: after `build_task_hierarchy` returns, the heap holds the same record
sequence — every payload field (content, priority, dates, notes, responsible
party, …) of every input record unchanged, in the original order and number.
(The `children` key, which the builder does write in place, is modelled
outside `Task` precisely so that this preservation is about the record
fields.) -/
theorem build_preserves_records (tasks : List Task) (st : BuildState)
    (h : build_task_hierarchy tasks = some st) :
    st.store.map TaskNode.task = tasks ∧ st.store.length = tasks.length := by
  have h1 := buildLoop_store_tasks tasks 0 _ st h
  have h2 : (tasks.map (fun t => (⟨t, []⟩ : TaskNode))).map TaskNode.task = tasks := by
    simp only [List.map_map]
    exact List.map_id tasks
  have h3 : st.store.map TaskNode.task = tasks := by rw [h1]; exact h2
  refine ⟨h3, ?_⟩
  have h4 := congrArg List.length h3
  simpa using h4

/-- Witness for C5 on a concrete input: the final heap carries the input
record unchanged. -/
theorem build_preserves_records_witness :
    ((⟨[⟨mkT 1 1, []⟩], [0], [0]⟩ : BuildState).store.map TaskNode.task = [mkT 1 1]) ∧
    (⟨[⟨mkT 1 1, []⟩], [0], [0]⟩ : BuildState).store.length = [mkT 1 1].length :=
  build_preserves_records [mkT 1 1] ⟨[⟨mkT 1 1, []⟩], [0], [0]⟩ rfl

/-- One builder iteration preserves the well-formedness invariant, advancing
the processed prefix by one. -/
theorem buildStep_inv {st st1 : BuildState} {pos : Nat} {k : Int}
    (hinv : BuildInv pos st) (h : buildStep st pos k = some st1) :
    BuildInv (pos + 1) st1 := by
  have hstore1 : modifyAt st.store pos resetChildren = st.store := by
    apply modifyAt_id_of_fixed
    intro a ha
    have hch := hinv.freshChildren pos a (Nat.le_refl pos) ha
    cases a with
    | mk t ch =>
      simp only [resetChildren]
      simp at hch
      simp [hch]
  cases hp : popWhileGE k st.task_stack with
  | none =>
    simp only [buildStep, hp] at h
    exact Option.noConfusion h
  | some s1 =>
    have hsuf := popWhileGE_suffix hp
    simp only [buildStep, hp, hstore1] at h
    split at h
    · -- indent == 1: append to roots, stack becomes [pos]
      cases h
      have hocc : ∀ j, occCount ⟨st.store, st.root_tasks ++ [pos], [pos]⟩ j
          = occCount st j + countN j [pos] := by
        intro j
        simp only [occCount, countN_append]
        omega
      refine ⟨?_, ?_, ?_, ?_, ?_, ?_⟩
      · intro j nd hj hg
        exact hinv.freshChildren j nd (by omega) hg
      · intro j hj
        rw [hocc j, hinv.freshOcc j (by omega), countN_single,
          if_neg (show pos ≠ j by omega)]
      · intro j
        by_cases hj : pos = j
        · rw [hocc j, hinv.freshOcc j (by omega), countN_single, if_pos hj]
        · rw [hocc j, countN_single, if_neg hj]
          simpa using hinv.occLe j
      · intro j hj
        simp at hj
        omega
      · simp
      · exact hinv.childGt
    · cases s1 with
      | nil =>
        -- empty stack after popping: the node is pushed but owned by nobody
        cases h
        have hocc : ∀ j, occCount ⟨st.store, st.root_tasks, [pos]⟩ j = occCount st j := by
          intro j; rfl
        refine ⟨?_, ?_, ?_, ?_, ?_, ?_⟩
        · intro j nd hj hg
          exact hinv.freshChildren j nd (by omega) hg
        · intro j hj
          rw [hocc j]
          exact hinv.freshOcc j (by omega)
        · intro j
          rw [hocc j]
          exact hinv.occLe j
        · intro j hj
          simp at hj
          omega
        · simp
        · exact hinv.childGt
      | cons p rest =>
        -- non-empty stack: attach to the top of the stack
        cases h
        have hpmem : p ∈ st.task_stack := hsuf.subset (List.mem_cons_self p rest)
        have hplt : p < pos := hinv.stackLt p hpmem
        have hocc : ∀ j, occCount ⟨modifyAt st.store p (addChild pos),
            st.root_tasks, pos :: p :: rest⟩ j
            = occCount st j
              + (if p < st.store.length then (if pos = j then 1 else 0) else 0) := by
          intro j
          simp only [occCount, childOcc_modifyAt_addChild]
          omega
        have hoccne : ∀ j, pos ≠ j →
            occCount ⟨modifyAt st.store p (addChild pos),
              st.root_tasks, pos :: p :: rest⟩ j = occCount st j := by
          intro j hj
          rw [hocc j, if_neg hj, ite_self]
          omega
        refine ⟨?_, ?_, ?_, ?_, ?_, ?_⟩
        · intro j nd hj hg
          rw [getIdx_modifyAt_ne st.store (addChild pos) p j (by omega)] at hg
          exact hinv.freshChildren j nd (by omega) hg
        · intro j hj
          rw [hoccne j (by omega)]
          exact hinv.freshOcc j (by omega)
        · intro j
          by_cases hj : pos = j

          · rw [hocc j, hinv.freshOcc j (by omega), if_pos hj]
            split <;> omega
          · rw [hoccne j hj]
            exact hinv.occLe j
        · intro j hj
          rcases List.mem_cons.mp hj with h1 | h1
          · omega
          · have := hinv.stackLt j (hsuf.subset h1)
            omega
        · refine List.pairwise_cons.mpr ⟨?_, hinv.stackSorted.sublist hsuf.sublist⟩
          intro q hq
          exact hinv.stackLt q (hsuf.subset hq)
        · intro q nd hq j hj
          by_cases hqp : q = p
          · subst hqp
            rw [getIdx_modifyAt_self] at hq
            cases hg : getIdx st.store q with
            | none => rw [hg] at hq; exact Option.noConfusion hq
            | some nd0 =>
              rw [hg] at hq
              simp only [Option.map_some'] at hq
              cases hq
              rcases List.mem_append.mp hj with h1 | h1
              · exact hinv.childGt q nd0 hg j h1
              · simp at h1
                omega
          · rw [getIdx_modifyAt_ne st.store (addChild pos) p q hqp] at hq
            exact hinv.childGt q nd hq j hj

/-- The builder loop preserves the well-formedness invariant. -/
theorem buildLoop_inv : ∀ (ts : List Task) (pos : Nat) (st st1 : BuildState),
    BuildInv pos st → buildLoop ts pos st = some st1 → ∃ m, BuildInv m st1 := by
  intro ts
  induction ts with
  | nil =>
    intro pos st st1 hinv h
    cases h
    exact ⟨pos, hinv⟩
  | cons t ts ih =>
    intro pos st st1 hinv h
    cases hs : buildStep st pos t.indent with
    | none =>
      simp only [buildLoop, hs] at h
      exact Option.noConfusion h
    | some st2 =>
      simp only [buildLoop, hs] at h
      exact ih (pos + 1) st2 st1 (buildStep_inv hinv hs) h

/-- The initial builder state satisfies the invariant at position 0. -/
theorem buildInit_inv (tasks : List Task) :
    BuildInv 0 ⟨tasks.map (fun t => ⟨t, []⟩), [], []⟩ := by
  have hch : ∀ j nd, getIdx (tasks.map (fun t => (⟨t, []⟩ : TaskNode))) j = some nd →
      nd.children = [] := by
    intro j nd hg
    rw [getIdx_map] at hg
    cases hgt : getIdx tasks j with
    | none => rw [hgt] at hg; exact Option.noConfusion hg
    | some t =>
      rw [hgt] at hg
      simp only [Option.map_some'] at hg
      cases hg
      rfl
  refine ⟨?_, ?_, ?_, ?_, ?_, ?_⟩
  · intro j nd _ hg
    exact hch j nd hg
  · intro j _
    simp [occCount, countN, childOcc_map_mk]
  · intro j
    simp [occCount, countN, childOcc_map_mk]
  · intro j hj
    simp at hj
  · simp
  · intro p nd hg j hj
    rw [hch p nd hg] at hj
    simp at hj

/-- C4 (amended): in the forest returned by the builder every position has at
*most* one owner — it occurs at most once in the roots list and all `children`
lists taken together — and every child sits at a strictly later input position
than its parent, so the parent/child relation is acyclic.  A record processed
with `indentLevel > 1` while the stack is empty after popping has *zero*
owners (it is absent from the forest, see the C4 counterexample); all other
records have exactly one. -/
theorem forest_owner_unique (tasks : List Task) (st : BuildState)
    (h : build_task_hierarchy tasks = some st) :
    (∀ j, occCount st j ≤ 1) ∧
    (∀ p nd, getIdx st.store p = some nd → ∀ j ∈ nd.children, p < j) := by
  obtain ⟨m, hinv⟩ := buildLoop_inv tasks 0 _ st (buildInit_inv tasks) h
  exact ⟨hinv.occLe, hinv.childGt⟩

/-- Witness for the amended C4 on a concrete input: the single root position 0
has exactly one owner. -/
theorem forest_owner_unique_witness :
    occCount ⟨[⟨mkT 1 1, []⟩], [0], [0]⟩ 0 ≤ 1 :=
  (forest_owner_unique [mkT 1 1] ⟨[⟨mkT 1 1, []⟩], [0], [0]⟩ rfl).1 0

/-! ### parse_csv: note rows -/

theorem modifyAt_append_last (f : α → α) (t : α) :
    ∀ ts : List α, modifyAt (ts ++ [t]) ts.length f = ts ++ [f t] := by
  intro ts
  induction ts with
  | nil => rfl
  | cons x xs ih => simp [modifyAt, ih]

/-- Each `parse_csv` loop iteration keeps `last_task_id` equal to the number
of parsed tasks: the counter is bumped exactly when a task is appended. -/
theorem parseRow_last_len {st st1 : ParseState} {row : Row}
    (hl : st.last_task_id = st.tasks.length) (h : parseRow st row = some st1) :
    st1.last_task_id = st1.tasks.length := by
  simp only [parseRow] at h
  split at h
  · cases h
    simpa using hl
  · split at h
    · split at h
      · cases h
        simp [hl]
      · exact Option.noConfusion h
    · split at h
      · split at h
        · split at h
          · cases h
            rw [modifyAt_length]
            exact hl
          · exact Option.noConfusion h
        · cases h
          exact hl
      · cases h
        exact hl

/-- The `parse_csv` loop keeps `last_task_id` equal to the number of parsed
tasks. -/
theorem parseRows_last_len : ∀ (rows : List Row) (st st1 : ParseState),
    st.last_task_id = st.tasks.length → parseRows st rows = some st1 →
    st1.last_task_id = st1.tasks.length := by
  intro rows
  induction rows with
  | nil =>
    intro st st1 hl h
    cases h
    exact hl
  | cons r rs ih =>
    intro st st1 hl h
    cases hr : parseRow st r with
    | none =>
      simp only [parseRows, hr] at h
      exact Option.noConfusion h
    | some st2 =>
      simp only [parseRows, hr] at h
      exact ih st2 st1 (parseRow_last_len hl hr) h

/-- C10: in any state reachable by the `parse_csv` row loop, a row of type
`note` is appended to the `notes` list of the most recently parsed task (the
last element of `tasks`), leaving every other task, the sections and the
counters unchanged; and when no task has been parsed yet (`last_task_id = 0`)
the note row is silently discarded, leaving the whole state unchanged. -/
theorem note_attaches_to_last_task (rows : List Row) (row : Row) (st : ParseState)
    (hreach : parseRows initParseState rows = some st)
    (hty : pyStrip row.TYPE = "note") :
    (st.last_task_id = 0 → parseRow st row = some st) ∧
    (∀ ts t, st.tasks = ts ++ [t] →
       parseRow st row =
         some ⟨st.sections, st.current_section,
               ts ++ [{ t with notes := t.notes ++ [noteOf row] }],
               st.last_task_id⟩) := by
  have hlen : st.last_task_id = st.tasks.length :=
    parseRows_last_len rows initParseState st rfl hreach
  constructor
  · intro h0
    simp [parseRow, hty, h0]
  · intro ts t hts
    have hpos : st.last_task_id > 0 := by
      rw [hlen, hts]
      simp
    have hidx : st.last_task_id - 1 < st.tasks.length := by omega
    have hkey : modifyAt st.tasks (st.last_task_id - 1)
        (fun u => { u with notes := u.notes ++ [noteOf row] }) =
        ts ++ [{ t with notes := t.notes ++ [noteOf row] }] := by
      have hn : st.last_task_id - 1 = ts.length := by
        rw [hlen, hts]
        simp
      rw [hts, hn, modifyAt_append_last]
    simp [parseRow, hty, hpos, hidx, hkey]

/-- Witness for C10: after parsing one task row, a note row is appended to
that task's notes. -/
theorem note_attaches_to_last_task_witness :
    parseRow ⟨[], none, [taskA], 1⟩ (mkRow "note" "n") =
      some ⟨[], none, [{ taskA with notes := taskA.notes ++ [noteOf (mkRow "note" "n")] }], 1⟩ :=
  (note_attaches_to_last_task [mkRow "task" "a"] (mkRow "note" "n")
      ⟨[], none, [taskA], 1⟩ (by decide) rfl).2 [] taskA rfl

end Portfolio
